import Mathlib

/-!
Verification of the selection-and-assembly pipeline of `make-project-prompt`.

The development shallowly embeds the Go sources:
  * `pkg/files` — glob matching (`matchesPattern`, a wrapper around Go's
    `filepath.Match`), the pure selection filter `filterAndEnrichFiles`,
    and `ListGitFiles`;
  * `pkg/prompt` — the content assembler (`Generator`, `writeFiles`,
    default and raw rendering);
  * `pkg/config` — the alias store (`LoadAliases`, `ExpandAlias`);
  * the command entry point — `customParseArgs`, `expandAliasesInArgs`
    and `processFilesAndGeneratePrompt`.

External effects (git listing, `stat`, MIME/text classification, file
reads, clipboard, `tree`) are modelled as explicit oracles in an `Env`
record; the embedded functions are pure and executable.
-/

namespace Mpp

/-! ### Characters used by the matcher (written via code points where a
literal would be awkward) -/

def backslashChar : Char := Char.ofNat 92

def dquoteChar : Char := Char.ofNat 34

def squoteChar : Char := Char.ofNat 39

def spaceChar : Char := Char.ofNat 32

def tabChar : Char := Char.ofNat 9

def nulChar : Char := Char.ofNat 0

/-! ### String helpers mirroring Go's `strings` package, written over
`List Char` with structural recursion so that they evaluate inside the
kernel. -/

/-- `strings.HasPrefix` on character lists. -/
def isPreL : List Char → List Char → Bool
  | [], _ => true
  | _ :: _, [] => false
  | a :: as, b :: bs => a = b && isPreL as bs

/-- `strings.HasPrefix pre s`. -/
def hasPre (pre s : String) : Bool := isPreL pre.data s.data

/-- `strings.TrimPrefix s pre`: drop `pre` when it is a prefix, else return
`s` unchanged. -/
def trimPre (s pre : String) : String :=
  if isPreL pre.data s.data then String.mk (s.data.drop pre.data.length) else s

/-- `strings.TrimPrefix s "/"` (removes a single leading slash). -/
def trimLeadSlash (s : String) : String :=
  match s.data with
  | c :: rest => if c = '/' then String.mk rest else s
  | [] => s

/-- `strings.TrimSuffix s "/"` (removes a single trailing slash). -/
def trimTrailSlash (s : String) : String :=
  if s.data.getLast? = some '/' then String.mk s.data.dropLast else s

/-- `strings.Split s sep` for a one-character separator. -/
def splitOnCharL (sep : Char) : List Char → List (List Char)
  | [] => [[]]
  | c :: rest =>
    if c = sep then [] :: splitOnCharL sep rest
    else
      match splitOnCharL sep rest with
      | [] => [[c]]
      | g :: gs => (c :: g) :: gs

/-- `strings.Split s "/"`. -/
def splitOnSlash (s : String) : List String :=
  (splitOnCharL '/' s.data).map String.mk

/-- `strings.Split p "**"`: leftmost, non-overlapping occurrences of the
two-star separator. -/
def splitOnStarStarL : List Char → List (List Char)
  | [] => [[]]
  | [c] => [[c]]
  | c :: d :: rest =>
    if c = '*' && d = '*' then [] :: splitOnStarStarL rest
    else
      match splitOnStarStarL (d :: rest) with
      | [] => [[c]]
      | g :: gs => (c :: g) :: gs

/-- `strings.Split p "**"` on strings. -/
def splitOnStarStar (p : String) : List String :=
  (splitOnStarStarL p.data).map String.mk

/-- `strings.Join parts "/"`. -/
def intercalateSlash : List String → String
  | [] => ""
  | [x] => x
  | x :: xs => x ++ "/" ++ intercalateSlash xs

/-- Sequential `WriteString` calls on a `strings.Builder` concatenate the
written segments in order. -/
def joinStr : List String → String
  | [] => ""
  | s :: rest => s ++ joinStr rest

def sumNat : List Nat → Nat
  | [] => 0
  | n :: rest => n + sumNat rest

/-! ### Go `path/filepath.Match` (Unix rules, `Separator = '/'`)

Faithful embedding of the algorithm in Go's `src/path/filepath/match.go`:
`scanChunk`, `matchChunk`, `getEsc` and the main `Match` loop.  The
embedded `goMatch pattern name` is `true` exactly when Go's
`Match(pattern, name)` returns `(true, nil)`; every error path of the Go
code returns `(false, err)` and is mapped to `false` (the caller
`matchesPattern` only uses `err == nil && matched`).

The loops of `matchChunk`, its range parser and the outer `Match` loop
consume at least one pattern character per iteration; they are written
with a fuel argument set to `length + 1` at every call site, so the
out-of-fuel branch is unreachable.  Character comparisons are performed
on unicode scalars (`Char`), which agrees with Go's byte/rune handling
on ASCII patterns. -/

/-- Result of `matchChunk`: bad pattern, failed match, or the unconsumed
remainder of the name. -/
inductive ChunkRes where
  | err : ChunkRes
  | nomatch : ChunkRes
  | ok (rest : List Char) : ChunkRes
deriving DecidableEq, Repr

/-- Go `getEsc`: read one (possibly backslash-escaped) character of a
character class; `none` is `ErrBadPattern`. -/
def getEsc : List Char → Option (Char × List Char)
  | [] => none
  | c :: rest =>
    if c = '-' || c = ']' then none
    else if c = backslashChar then
      match rest with
      | [] => none
      | d :: rest2 => if rest2.isEmpty then none else some (d, rest2)
    else if rest.isEmpty then none else some (c, rest)

/-- The range-parsing loop inside `matchChunk`'s `[` case.  Arguments: the
character being classified, the chunk remainder, the accumulated `match`
flag and whether at least one range has been parsed (`nrange > 0`).
Returns the match flag and the chunk after the closing `]`, or `none` for
`ErrBadPattern`.  Each iteration consumes at least one chunk character,
so `fuel = chunk.length + 1` never runs out. -/
def parseRangesF : Nat → Char → List Char → Bool → Bool → Option (Bool × List Char)
  | 0, _, _, _, _ => none
  | fuel + 1, r, chunk, matchAcc, started =>
    match chunk with
    | ']' :: rest =>
      if started then some (matchAcc, rest)
      else none
    | _ =>
      match getEsc chunk with
      | none => none
      | some (lo, chunk1) =>
        match chunk1 with
        | '-' :: chunk1' =>
          match getEsc chunk1' with
          | none => none
          | some (hi, chunk2) =>
            parseRangesF fuel r chunk2 (matchAcc || (lo ≤ r && r ≤ hi)) true
        | _ =>
          parseRangesF fuel r chunk1 (matchAcc || (lo ≤ r && r ≤ lo)) true

/-- Go `matchChunk chunk s` with its `failed` flag.  Each iteration
consumes at least one chunk character, so `fuel = chunk.length + 1`
never runs out. -/
def matchChunkF : Nat → List Char → List Char → Bool → ChunkRes
  | 0, _, _, _ => ChunkRes.err
  | fuel + 1, chunk, s, failed0 =>
    match chunk with
    | [] => if failed0 then ChunkRes.nomatch else ChunkRes.ok s
    | c :: rest =>
      let failed1 := failed0 || s.isEmpty
      if c = '[' then
        let r : Char := if failed1 then nulChar else s.headD nulChar
        let s1 := if failed1 then s else s.tail
        let negRest : Bool × List Char :=
          match rest with
          | '^' :: rest1 => (true, rest1)
          | _ => (false, rest)
        match parseRangesF (negRest.2.length + 1) r negRest.2 false false with
        | none => ChunkRes.err
        | some (m, rest2) =>
          matchChunkF fuel rest2 s1 (if m = negRest.1 then true else failed1)
      else if c = '?' then
        let failed2 := failed1 || (!failed1 && s.headD nulChar = '/')
        let s1 := if failed1 then s else s.tail
        matchChunkF fuel rest s1 failed2
      else if c = backslashChar then
        match rest with
        | [] => ChunkRes.err
        | d :: rest2 =>
          let failed2 := failed1 || (!failed1 && !(s.headD nulChar = d))
          let s1 := if failed1 then s else s.tail
          matchChunkF fuel rest2 s1 failed2
      else
        let failed2 := failed1 || (!failed1 && !(s.headD nulChar = c))
        let s1 := if failed1 then s else s.tail
        matchChunkF fuel rest s1 failed2

def matchChunkRun (chunk s : List Char) : ChunkRes :=
  matchChunkF (chunk.length + 1) chunk s false

/-- Go `scanChunk`, part 1: strip leading stars. -/
def stripStars : List Char → Bool × List Char
  | [] => (false, [])
  | c :: p => if c = '*' then (true, (stripStars p).2) else (false, c :: p)

/-- Go `scanChunk`, part 2: scan up to the next top-level `*`, skipping a
character after a backslash and tracking `[`…`]` ranges. -/
def scanBody : List Char → Bool → List Char × List Char
  | [], _ => ([], [])
  | c :: rest, inrange =>
    if c = backslashChar then
      match rest with
      | d :: rest2 =>
        let (ch, r) := scanBody rest2 inrange
        (c :: d :: ch, r)
      | [] =>
        let (ch, r) := scanBody [] inrange
        (c :: ch, r)
    else if c = '[' then
      let (ch, r) := scanBody rest true
      (c :: ch, r)
    else if c = ']' then
      let (ch, r) := scanBody rest false
      (c :: ch, r)
    else if c = '*' && !inrange then ([], c :: rest)
    else
      let (ch, r) := scanBody rest inrange
      (c :: ch, r)

/-- Go `scanChunk`: `(star, chunk, rest)`. -/
def scanChunk (p : List Char) : Bool × List Char × List Char :=
  let (star, p1) := stripStars p
  let (chunk, rest) := scanBody p1 false
  (star, chunk, rest)

/-- The `if star { for i ... }` loop of Go `Match`: try the chunk after
skipping one more non-separator character of the name at a time.
`patEmpty` records `len(pattern) == 0` for the trailing-chunk check. -/
def starLoop (chunk : List Char) (patEmpty : Bool) : List Char → ChunkRes
  | [] => ChunkRes.nomatch
  | c :: rest =>
    if c = '/' then ChunkRes.nomatch
    else
      match matchChunkRun chunk rest with
      | ChunkRes.err => ChunkRes.err
      | ChunkRes.ok t =>
        if patEmpty && !t.isEmpty then starLoop chunk patEmpty rest
        else ChunkRes.ok t
      | ChunkRes.nomatch => starLoop chunk patEmpty rest

/-- The main loop of Go `Match`.  Each iteration consumes at least one
pattern character (the `star && chunk == ""` case returns before
recursing), so `fuel = pattern.length + 1` never runs out. -/
def matchPatF : Nat → List Char → List Char → Bool
  | 0, _, _ => false
  | fuel + 1, pattern, name =>
    match pattern with
    | [] => name.isEmpty
    | _ :: _ =>
      let (star, chunk, rest) := scanChunk pattern
      if star && chunk.isEmpty then !(name.contains '/')
      else
        match matchChunkRun chunk name with
        | ChunkRes.ok t =>
          if t.isEmpty || !rest.isEmpty then matchPatF fuel rest t
          else if star then
            match starLoop chunk rest.isEmpty name with
            | ChunkRes.ok t' => matchPatF fuel rest t'
            | _ => false
          else false
        | ChunkRes.err => false
        | ChunkRes.nomatch =>
          if star then
            match starLoop chunk rest.isEmpty name with
            | ChunkRes.ok t' => matchPatF fuel rest t'
            | _ => false
          else false

/-- `filepath.Match pattern name` returned `(true, nil)`. -/
def goMatch (pattern name : String) : Bool :=
  matchPatF (pattern.data.length + 1) pattern.data name.data

/-! ### `pkg/files.matchesPattern` -/

/-- `matchesPattern file pattern` (pkg/files): exact match, then
`filepath.Match`, then the dedicated `**` handling.  The Go guard
`strings.Contains(pattern, "**")` followed by `len(parts) == 2` is
equivalent to the split producing exactly two parts, which is how it is
written here. -/
def matchesPattern (file pattern : String) : Bool :=
  if file = pattern then true
  else if goMatch pattern file then true
  else
    match splitOnStarStar pattern with
    | [pre, suf0] =>
      let suf := trimLeadSlash suf0
      if hasPre pre file then
        let remaining := trimLeadSlash (trimPre file pre)
        if goMatch suf remaining then true
        else
          (List.range (splitOnSlash remaining).length).any fun i =>
            goMatch suf (intercalateSlash ((splitOnSlash remaining).drop i))
      else false
    | _ => false

/-! ### File selector (`pkg/files`)

`os.Stat`, text classification (`IsTextFile`, which shells out to `file`
and reads file contents), `git ls-files`, file reads, the clipboard and
`tree` are external effects; they are supplied as oracles in `Env`. -/

structure FileStat where
  size : Int
  isRegular : Bool
deriving DecidableEq, Repr

structure Env where
  /-- `git ls-files -co --exclude-standard` output lines; the argument is
  whether `--ignored` was added (force-include patterns present). -/
  gitFiles : Bool → List String
  /-- `os.Stat`: `none` when the file cannot be stat'ed. -/
  statFile : String → Option FileStat
  /-- `IsTextFile` (MIME/extension/content heuristics). -/
  isTextFile : String → Bool
  /-- `os.ReadFile`: `none` on read failure. -/
  readFile : String → Option String
  /-- `clipboard.ReadAll`: `none` on failure. -/
  clipboard : Option String
  /-- `GetProjectTree`: `none` when it returns an error. -/
  tree : Option String

/-- `files.FileInfo`. -/
structure FileInfo where
  path : String
  isText : Bool
  isForced : Bool
  size : Int
  isRegular : Bool
deriving DecidableEq, Repr

/-- `files.Config`. -/
structure Config where
  includePatterns : List String
  excludePatterns : List String
  forceIncludePatterns : List String
deriving DecidableEq, Repr

/-- The force-include scan of `filterAndEnrichFiles` (`isForced`). -/
def isForcedFile (cfg : Config) (file : String) : Bool :=
  cfg.forceIncludePatterns.any fun pattern => matchesPattern file pattern

/-- The inclusion step of `filterAndEnrichFiles` (`isIncluded`): forced
paths pass; otherwise a non-empty include set must be matched; otherwise
default-include-all applies only when the force-include set is empty
too. -/
def isIncludedFile (cfg : Config) (file : String) : Bool :=
  if isForcedFile cfg file then true
  else if cfg.includePatterns.length > 0 then
    cfg.includePatterns.any fun pattern => matchesPattern file pattern
  else if cfg.forceIncludePatterns.length > 0 then false
  else true

/-- The exclusion step of `filterAndEnrichFiles`: each exclude pattern is
normalized by stripping a trailing slash; rejection on a
`matchesPattern` hit or on nesting under the excluded directory. -/
def isExcludedFile (cfg : Config) (file : String) : Bool :=
  cfg.excludePatterns.any fun excludePattern =>
    let normalizedPattern := trimTrailSlash excludePattern
    matchesPattern file normalizedPattern || hasPre (normalizedPattern ++ "/") file

/-- The body of the `filterAndEnrichFiles` loop for a single candidate
path: `none` when the path is skipped, `some info` when it is appended
to the result. -/
def selectFile (env : Env) (cfg : Config) (file : String) : Option FileInfo :=
  let isForced := isForcedFile cfg file
  if !isIncludedFile cfg file then none
  else if !isForced && isExcludedFile cfg file then none
  else
    match env.statFile file with
    | none => none
    | some st =>
      if !isForced then
        if env.isTextFile file then
          some { path := file, isText := true, isForced := false,
                 size := st.size, isRegular := st.isRegular }
        else none
      else
        some { path := file, isText := true, isForced := true,
               size := st.size, isRegular := st.isRegular }

/-- `files.filterAndEnrichFiles`: the loop appends the kept entries in
candidate order. -/
def filterAndEnrichFiles (env : Env) (files : List String) (cfg : Config) : List FileInfo :=
  files.filterMap (selectFile env cfg)

/-- The force-include existence loop of `ListGitFiles`: a force pattern
naming an existing file that is not already listed is appended. -/
def addForcePatterns (env : Env) (fileList : List String) : List String → List String
  | [] => fileList
  | pattern :: rest =>
    if (env.statFile pattern).isSome && !fileList.contains pattern then
      addForcePatterns env (fileList ++ [pattern]) rest
    else
      addForcePatterns env fileList rest

/-- `files.ListGitFiles` (the git subprocess is assumed to succeed; its
failure aborts the pipeline and is outside the claims). -/
def ListGitFiles (env : Env) (cfg : Config) : List FileInfo :=
  let fileList := env.gitFiles (cfg.forceIncludePatterns.length > 0)
  let fileList :=
    if cfg.forceIncludePatterns.length > 0 then
      addForcePatterns env fileList cfg.forceIncludePatterns
    else fileList
  filterAndEnrichFiles env fileList cfg

/-! ### Content assembler (`pkg/prompt`) -/

/-- `prompt.ContentItem`.  The `filePatterns`/`files` fields are those of
the current `ContentItem` (populated by `processFilesAndGeneratePrompt`
and exercised by `TestGenerator_RawModeInterleaving`). -/
structure ContentItem where
  type : String
  content : String := ""
  filePatterns : List String := []
  files : List FileInfo := []
  order : Nat
deriving DecidableEq, Repr

/-- `prompt.Generator`. -/
structure Generator where
  files : List FileInfo
  question : String
  questions : List ContentItem
  maxFileSize : Int
  quietMode : Bool
  roleMessage : String := ""
  extraContext : String := ""
  lastWords : String := ""
  rawMode : Bool := false
  contentItems : List ContentItem := []
  includeTree : Bool := true

/-- `prompt.NewGenerator`. -/
def NewGenerator (fileInfos : List FileInfo) (question : String) (quietMode : Bool) : Generator :=
  { files := fileInfos
    question := question
    questions :=
      if question ≠ "" && question ≠ "[YOUR QUESTION HERE]" then
        [{ type := "question", content := question, order := 0 }]
      else []
    maxFileSize := 1048576
    quietMode := quietMode
    includeTree := true
    rawMode := false }

/-- The body of the `writeFiles` loop for a single file: `none` when the
file is skipped (not regular; too large and not forced; non-text and not
forced; unreadable), `some block` when its delimited content is written
and the counter is incremented. -/
def writeFileEntry (env : Env) (maxFileSize : Int) (f : FileInfo) : Option String :=
  if !f.isRegular then none
  else if !f.isForced && f.size > maxFileSize then none
  else if !f.isForced && !f.isText then none
  else
    match env.readFile f.path with
    | none => none
    | some content =>
      some ("\n--- FILE: " ++ f.path ++ " ---\n" ++ content ++
            "\n--- END FILE: " ++ f.path ++ " ---\n")

/-- The blocks emitted by `writeFiles`, in order. -/
def writeFilesList (env : Env) (maxFileSize : Int) (files : List FileInfo) : List String :=
  files.filterMap (writeFileEntry env maxFileSize)

/-- `Generator.writeFiles`: the concatenated blocks and the file
counter. -/
def writeFiles (env : Env) (maxFileSize : Int) (files : List FileInfo) : String × Nat :=
  (joinStr (writeFilesList env maxFileSize files), (writeFilesList env maxFileSize files).length)

/-- The project-structure section of `generateDefaultMode`. -/
def treeSection (env : Env) : String :=
  "--- PROJECT STRUCTURE (based on \x27tree\x27, may differ slightly from included files) ---\n" ++
    (match env.tree with
     | some t => t
     | none => "Error running tree command.\n") ++ "\n"

/-- The question section of `generateDefaultMode`: the standing sentence
followed by every accumulated question on its own line; the deprecated
single `question` field is a fallback. -/
def questionSection (g : Generator) : String :=
  if g.questions.length > 0 then
    "\nBased on the context provided above, answer the following question:\n\n" ++
      joinStr (g.questions.map fun q => q.content ++ "\n")
  else if g.question ≠ "" && g.question ≠ "[YOUR QUESTION HERE]" then
    "\nBased on the context provided above, answer the following question:\n\n" ++
      g.question ++ "\n"
  else ""

/-- The segments written by `generateDefaultMode`, in `WriteString`
order. -/
def defaultModeSegments (env : Env) (g : Generator) : List String :=
  [ if g.roleMessage ≠ "" then g.roleMessage ++ "\n\n" else "",
    "Here is the context of my current project. Analyze the structure and content of the provided files to answer my question.\n\n",
    if g.includeTree then treeSection env else "",
    "--- FILE CONTENT (based on git ls-files, respecting .gitignore and -i/-e/-f options) ---\n",
    joinStr (writeFilesList env g.maxFileSize g.files),
    "\n--- END OF FILE CONTENT ---\n",
    if g.extraContext ≠ "" then "\n" ++ g.extraContext ++ "\n" else "",
    questionSection g,
    if g.lastWords ≠ "" then "\n" ++ g.lastWords ++ "\n" else "" ]

/-- `Generator.generateDefaultMode`. -/
def generateDefaultMode (env : Env) (g : Generator) : String × Nat :=
  (joinStr (defaultModeSegments env g), (writeFilesList env g.maxFileSize g.files).length)

/-- Modelled from the spec: the rendering of one raw-mode content item.
The `ContentItems`-aware `Generator.generateRawMode` of the current
`pkg/prompt` is not present under `src/` (`src/pkg/prompt/prompt.go` is
an older revision that predates the `ContentItems` field its caller and
tests use); per spec §4.4, raw mode "emits only the items themselves in
declared order — no preamble, no project-structure section, no standing
sentences — each file-group rendering its member files with the same
start/end delimiters, each question item rendering as its literal
text". -/
def rawRenderItem (env : Env) (maxFileSize : Int) (item : ContentItem) : String :=
  if item.type = "question" then item.content ++ "\n"
  else if item.type = "file_group" then joinStr (writeFilesList env maxFileSize item.files)
  else ""

/-- Modelled from the spec: the file counter contributed by one raw-mode
content item. -/
def rawItemCount (env : Env) (maxFileSize : Int) (item : ContentItem) : Nat :=
  if item.type = "file_group" then (writeFilesList env maxFileSize item.files).length
  else 0

/-- Modelled from the spec: `Generator.generateRawMode` over
`ContentItems` (see `rawRenderItem`); with no content items it degrades
to the older all-files-then-all-questions rendering that is in
`src/pkg/prompt/prompt.go`. -/
def generateRawMode (env : Env) (g : Generator) : String × Nat :=
  if g.contentItems.length > 0 then
    (joinStr (g.contentItems.map (rawRenderItem env g.maxFileSize)),
     sumNat (g.contentItems.map (rawItemCount env g.maxFileSize)))
  else
    (joinStr (writeFilesList env g.maxFileSize g.files) ++
       joinStr (g.questions.map fun q => "\n" ++ q.content ++ "\n"),
     (writeFilesList env g.maxFileSize g.files).length)

/-- `Generator.Generate`. -/
def generate (env : Env) (g : Generator) : String × Nat :=
  if g.rawMode then generateRawMode env g else generateDefaultMode env g

/-! ### Argument interpreter (`customParseArgs` in the command entry
point) -/

/-- `argOrderItem`: one entry of the order log. -/
structure ArgOrderItem where
  type : String
  content : String := ""
  order : Nat
deriving DecidableEq, Repr

/-- The flag state populated by `customParseArgs` (the package-level
flag variables plus `argOrder` and its counter). -/
structure ParsedArgs where
  includePatterns : List String := []
  excludePatterns : List String := []
  forceIncludePatterns : List String := []
  questions : List String := []
  questionFiles : List String := []
  useClipboard : Bool := false
  outputFile : String := ""
  useStdout : Bool := false
  quietMode : Bool := false
  showHelp : Bool := false
  dryRun : Bool := false
  aliasName : String := ""
  listAliases : Bool := false
  rawMode : Bool := false
  argOrder : List ArgOrderItem := []
  orderCounter : Nat := 0
deriving DecidableEq, Repr

/-- Append an order-log entry and bump the counter. -/
def argOrderPush (st : ParsedArgs) (t content : String) : ParsedArgs :=
  { st with
      argOrder := st.argOrder ++ [{ type := t, content := content, order := st.orderCounter }],
      orderCounter := st.orderCounter + 1 }

/-- A token starting with the flag marker. -/
def isFlagArg (arg : String) : Bool := hasPre "-" arg

/-- The `switch currentFlag` over a looked-ahead value. -/
def applyFlagValue (st : ParsedArgs) (cf v : String) : ParsedArgs :=
  if cf = "-q" || cf = "--q" then
    argOrderPush { st with questions := st.questions ++ [v] } "question" v
  else if cf = "-qf" || cf = "--qf" then
    argOrderPush { st with questionFiles := st.questionFiles ++ [v] } "question_file" v
  else if cf = "-output" || cf = "--output" then { st with outputFile := v }
  else if cf = "-i" || cf = "--i" then
    argOrderPush { st with includePatterns := st.includePatterns ++ [v] } "include" v
  else if cf = "-e" || cf = "--e" then { st with excludePatterns := st.excludePatterns ++ [v] }
  else if cf = "-f" || cf = "--f" then
    argOrderPush { st with forceIncludePatterns := st.forceIncludePatterns ++ [v] } "force_include" v
  else if cf = "-a" || cf = "--a" then { st with aliasName := v }
  else st

/-- A non-flag token following the current flag (multi-value
accumulation). -/
def applyContinuation (st : ParsedArgs) (cf arg : String) : ParsedArgs :=
  if cf = "-i" || cf = "--i" then
    argOrderPush { st with includePatterns := st.includePatterns ++ [arg] } "include" arg
  else if cf = "-e" || cf = "--e" then { st with excludePatterns := st.excludePatterns ++ [arg] }
  else if cf = "-f" || cf = "--f" then
    argOrderPush { st with forceIncludePatterns := st.forceIncludePatterns ++ [arg] } "force_include" arg
  else if cf = "-q" || cf = "--q" then
    argOrderPush { st with questions := st.questions ++ [arg] } "question" arg
  else if cf = "-qf" || cf = "--qf" then
    argOrderPush { st with questionFiles := st.questionFiles ++ [arg] } "question_file" arg
  else st

/-- The scanning loop of `customParseArgs`.  Each iteration consumes at
least one argument, so `fuel = args.length + 1` never runs out. -/
def parseArgsLoopF : Nat → ParsedArgs → String → List String → ParsedArgs
  | 0, st, _, _ => st
  | fuel + 1, st, currentFlag, args =>
    match args with
    | [] => st
    | arg :: rest =>
      if isFlagArg arg then
        if arg = "-h" || arg = "--h" then
          parseArgsLoopF fuel { st with showHelp := true } arg rest
        else if arg = "-c" || arg = "--c" then
          parseArgsLoopF fuel (argOrderPush { st with useClipboard := true } "clipboard" "") arg rest
        else if arg = "-stdout" || arg = "--stdout" then
          parseArgsLoopF fuel { st with useStdout := true } arg rest
        else if arg = "-quiet" || arg = "--quiet" then
          parseArgsLoopF fuel { st with quietMode := true } arg rest
        else if arg = "-dry-run" || arg = "--dry-run" then
          parseArgsLoopF fuel { st with dryRun := true } arg rest
        else if arg = "-list-aliases" || arg = "--list-aliases" then
          parseArgsLoopF fuel { st with listAliases := true } arg rest
        else if arg = "-raw" || arg = "--raw" then
          parseArgsLoopF fuel { st with rawMode := true } arg rest
        else
          match rest with
          | [] => st
          | v :: rest2 =>
            if isFlagArg v then parseArgsLoopF fuel st arg (v :: rest2)
            else parseArgsLoopF fuel (applyFlagValue st arg v) arg rest2
      else
        parseArgsLoopF fuel (applyContinuation st currentFlag arg) currentFlag rest

/-- `customParseArgs` over `os.Args[1:]`. -/
def customParseArgs (args : List String) : ParsedArgs :=
  parseArgsLoopF (args.length + 1) {} "" args

/-! ### Pipeline (`processFilesAndGeneratePrompt`) -/

/-- The fatal error conditions of `processFilesAndGeneratePrompt`. -/
inductive MppError where
  | readFileError (path : String)
  | emptyQuestionFile (path : String)
  | clipboardReadError
  | clipboardEmpty
  | patternsMatchedNothing (patterns : List String)
  | noFilesInRepository
  | noFilesIncluded
deriving DecidableEq, Repr

/-- Reading a `-qf` question file: read failure and an empty file are
fatal. -/
def readQuestionFile (env : Env) (path : String) : Except MppError String :=
  match env.readFile path with
  | none => Except.error (MppError.readFileError path)
  | some content =>
    if content = "" then Except.error (MppError.emptyQuestionFile path)
    else Except.ok content

/-- Reading the clipboard as a question (`-c`). -/
def readClipboard (env : Env) : Except MppError String :=
  match env.clipboard with
  | none => Except.error MppError.clipboardReadError
  | some c => if c = "" then Except.error MppError.clipboardEmpty else Except.ok c

/-- The raw-mode ordered build of content items: each order-log entry is
turned into a content item in place; include / force-include entries run
the file selector for that single pattern and accumulate the matched
files. -/
def buildRawItems (env : Env) (excl : List String) :
    List ArgOrderItem → Except MppError (List ContentItem × List FileInfo)
  | [] => Except.ok ([], [])
  | item :: rest =>
    if item.type = "question" then
      match buildRawItems env excl rest with
      | Except.error e => Except.error e
      | Except.ok (items, infos) =>
        Except.ok ({ type := "question", content := item.content, order := item.order } :: items,
                   infos)
    else if item.type = "question_file" then
      match readQuestionFile env item.content with
      | Except.error e => Except.error e
      | Except.ok content =>
        match buildRawItems env excl rest with
        | Except.error e => Except.error e
        | Except.ok (items, infos) =>
          Except.ok ({ type := "question", content := content, order := item.order } :: items,
                     infos)
    else if item.type = "clipboard" then
      match readClipboard env with
      | Except.error e => Except.error e
      | Except.ok content =>
        match buildRawItems env excl rest with
        | Except.error e => Except.error e
        | Except.ok (items, infos) =>
          Except.ok ({ type := "question", content := content, order := item.order } :: items,
                     infos)
    else if item.type = "include" ∨ item.type = "force_include" then
      let fileConfig : Config :=
        if item.type = "force_include" then
          { includePatterns := [], excludePatterns := excl,
            forceIncludePatterns := [item.content] }
        else
          { includePatterns := [item.content], excludePatterns := excl,
            forceIncludePatterns := [] }
      let fileInfos := ListGitFiles env fileConfig
      match buildRawItems env excl rest with
      | Except.error e => Except.error e
      | Except.ok (items, infos) =>
        Except.ok ({ type := "file_group", filePatterns := [item.content],
                     files := fileInfos, order := item.order } :: items,
                   fileInfos ++ infos)
    else
      buildRawItems env excl rest

/-- Question items built from a list of literal questions, with orders
counting up from `startOrder`. -/
def buildQuestionItems (qs : List String) (startOrder : Nat) : List ContentItem :=
  qs.enum.map fun qi =>
    { type := "question", content := qi.2, order := startOrder + qi.1 }

/-- Question items built from `-qf` files; a read failure or an empty
file aborts. -/
def buildQfItems (env : Env) (startOrder : Nat) :
    List String → Except MppError (List ContentItem)
  | [] => Except.ok []
  | qf :: rest =>
    match readQuestionFile env qf with
    | Except.error e => Except.error e
    | Except.ok content =>
      match buildQfItems env (startOrder + 1) rest with
      | Except.error e => Except.error e
      | Except.ok items =>
        Except.ok ({ type := "question", content := content, order := startOrder } :: items)

/-- The raw-mode branch with an empty order log: one file group for all
files (when any), then the questions, question files and clipboard. -/
def buildNoOrderItems (env : Env) (p : ParsedArgs) (fileInfos : List FileInfo) :
    Except MppError (List ContentItem) :=
  let fileItems : List ContentItem :=
    if fileInfos.length > 0 then
      [{ type := "file_group", filePatterns := ["*"], files := fileInfos, order := 0 }]
    else []
  let qItems := buildQuestionItems p.questions 1
  match buildQfItems env (1 + p.questions.length) p.questionFiles with
  | Except.error e => Except.error e
  | Except.ok qfItems =>
    if p.useClipboard then
      match readClipboard env with
      | Except.error e => Except.error e
      | Except.ok c =>
        Except.ok (fileItems ++ qItems ++ qfItems ++
          [{ type := "question", content := c,
             order := 1 + p.questions.length + p.questionFiles.length }])
    else Except.ok (fileItems ++ qItems ++ qfItems)

/-- The first stage of `processFilesAndGeneratePrompt`: build
`contentItems` and `allFileInfos`. -/
def buildStep (env : Env) (p : ParsedArgs) :
    Except MppError (List ContentItem × List FileInfo) :=
  if p.rawMode && p.argOrder.length > 0 then
    buildRawItems env p.excludePatterns p.argOrder
  else
    let fileConfig : Config :=
      { includePatterns := p.includePatterns,
        excludePatterns := p.excludePatterns,
        forceIncludePatterns := p.forceIncludePatterns }
    let fileInfos := ListGitFiles env fileConfig
    if p.rawMode then
      match buildNoOrderItems env p fileInfos with
      | Except.error e => Except.error e
      | Except.ok items => Except.ok (items, fileInfos)
    else Except.ok ([], fileInfos)

/-- The default-mode question accumulation (`allQuestions`): all `-q`
questions, then all `-qf` file contents, then the clipboard content. -/
def collectDefaultQuestions (env : Env) (p : ParsedArgs) :
    Except MppError (List ContentItem) :=
  if p.rawMode then Except.ok []
  else
    let qItems := buildQuestionItems p.questions 0
    match buildQfItems env p.questions.length p.questionFiles with
    | Except.error e => Except.error e
    | Except.ok qfItems =>
      if p.useClipboard then
        match readClipboard env with
        | Except.error e => Except.error e
        | Except.ok c =>
          Except.ok (qItems ++ qfItems ++
            [{ type := "question", content := c,
               order := p.questions.length + p.questionFiles.length }])
      else Except.ok (qItems ++ qfItems)

/-- The generator configured by `processFilesAndGeneratePrompt`,
including the placeholder question substituted in default mode when no
question exists. -/
def pipelineGenerator (allFileInfos : List FileInfo) (p : ParsedArgs)
    (allQuestions contentItems : List ContentItem) : Generator :=
  let generator1 :=
    { NewGenerator allFileInfos "" p.quietMode with
        rawMode := p.rawMode, questions := allQuestions, contentItems := contentItems }
  if p.rawMode = false && allQuestions.length = 0 then
    { generator1 with
        questions := [{ type := "question", content := "[YOUR QUESTION HERE]", order := 0 }] }
  else generator1

/-- `processFilesAndGeneratePrompt`. -/
def processFilesAndGeneratePrompt (env : Env) (p : ParsedArgs) :
    Except MppError (String × Nat) :=
  match buildStep env p with
  | Except.error e => Except.error e
  | Except.ok (contentItems, allFileInfos) =>
    if allFileInfos.length = 0 &&
        (p.includePatterns.length > 0 || p.forceIncludePatterns.length > 0) then
      Except.error (MppError.patternsMatchedNothing (p.includePatterns ++ p.forceIncludePatterns))
    else if allFileInfos.length = 0 && !(p.rawMode && p.argOrder.length > 0) then
      Except.error MppError.noFilesInRepository
    else
      match collectDefaultQuestions env p with
      | Except.error e => Except.error e
      | Except.ok allQuestions =>
        let generator := pipelineGenerator allFileInfos p allQuestions contentItems
        let result := generate env generator
        if result.2 = 0 then Except.error MppError.noFilesIncluded
        else Except.ok result

/-! ### Alias store (`pkg/config`) -/

/-- `config.Alias`. -/
structure Alias where
  name : String
  options : String
  source : String
deriving DecidableEq, Repr

/-- The duplicate-alias warning emitted by `LoadAliases`:
`"alias [name] is duplicated (first defined in firstSource, also in
dupSource)"`. -/
structure ShadowWarning where
  name : String
  firstSource : String
  dupSource : String
deriving DecidableEq, Repr

/-- First-binding lookup in an association list (the behaviour of the
insert-if-absent Go maps below). -/
def lookupStr (m : List (String × String)) (k : String) : Option String :=
  (m.find? fun kv => kv.1 = k).map fun kv => kv.2

/-- `Config.GetAlias` over the accumulated alias map. -/
def GetAliasList (m : List (String × Alias)) (k : String) : Option Alias :=
  (m.find? fun kv => kv.1 = k).map fun kv => kv.2

/-- The inner loop of `LoadAliases` over one parsed config file: a name
already in `seenAliases` produces a duplicate warning; otherwise the
alias is added to the map and the name recorded. -/
def loadAliasesFromFile (seen : List (String × String)) (acc : List (String × Alias))
    (warns : List ShadowWarning) (configPath : String) :
    List Alias → List (String × String) × List (String × Alias) × List ShadowWarning
  | [] => (seen, acc, warns)
  | a :: rest =>
    match lookupStr seen a.name with
    | some src =>
      loadAliasesFromFile seen acc
        (warns ++ [{ name := a.name, firstSource := src, dupSource := configPath }])
        configPath rest
    | none =>
      loadAliasesFromFile (seen ++ [(a.name, configPath)]) (acc ++ [(a.name, a)])
        warns configPath rest

/-- The directory walk of `LoadAliases` over the already-parsed config
files, ordered from the working directory upward (closest first). -/
def loadAliasesLoop (seen : List (String × String)) (acc : List (String × Alias))
    (warns : List ShadowWarning) :
    List (String × List Alias) → List (String × Alias) × List ShadowWarning
  | [] => (acc, warns)
  | (path, aliases) :: restChain =>
    match loadAliasesFromFile seen acc warns path aliases with
    | (seen2, acc2, warns2) => loadAliasesLoop seen2 acc2 warns2 restChain

/-- `config.LoadAliases`, abstracted over the parsed configuration files
found on the upward search path (closest to the working directory
first): the resulting alias map and the duplicate warnings. -/
def LoadAliasesChain (chain : List (String × List Alias)) :
    List (String × Alias) × List ShadowWarning :=
  loadAliasesLoop [] [] [] chain

/-- The per-alias stream processed by `LoadAliases`: every parsed alias
on the search path, closest file first, in file order, paired with its
config file. -/
def flattenChain (chain : List (String × List Alias)) : List (String × Alias) :=
  chain.flatMap fun pf => pf.2.map fun a => (pf.1, a)

/-- All definitions of `name` on the search path, closest first, paired
with the config file that holds them. -/
def aliasOccurrences (chain : List (String × List Alias)) (name : String) :
    List (String × Alias) :=
  (flattenChain chain).filter fun pa => pa.2.name = name

/-- The tokenizer loop of `config.ExpandAlias`: shell-like splitting on
spaces and tabs, with single- or double-quoted substrings forming one
token. -/
def expandAliasLoop (inQuotes : Bool) (quoteChar : Char) (current : List Char)
    (args : List String) : List Char → List String
  | [] => if current.length > 0 then args ++ [String.mk current] else args
  | ch :: rest =>
    if inQuotes then
      if ch = quoteChar then expandAliasLoop false nulChar current args rest
      else expandAliasLoop true quoteChar (current ++ [ch]) args rest
    else
      if ch = dquoteChar || ch = squoteChar then
        expandAliasLoop true ch current args rest
      else if ch = spaceChar || ch = tabChar then
        if current.length > 0 then
          expandAliasLoop false quoteChar [] (args ++ [String.mk current]) rest
        else expandAliasLoop false quoteChar [] args rest
      else expandAliasLoop false quoteChar (current ++ [ch]) args rest

/-- `config.ExpandAlias`. -/
def ExpandAlias (options : String) : List String :=
  expandAliasLoop false nulChar [] [] options.data

/-- The error outcomes of `expandAliasesInArgs`. -/
inductive ExpandError where
  | missingAliasArgument
  | aliasNotFound (name : String)
deriving DecidableEq, Repr

/-- `expandAliasesInArgs` (command entry point): one left-to-right pass
over the tokens; each `-a name` pair is replaced in place by the
tokenization of the alias's options, and the inserted tokens are never
re-scanned; an unknown alias name is fatal. -/
def expandAliasesInArgs (cfg : List (String × Alias)) :
    List String → Except ExpandError (List String)
  | [] => Except.ok []
  | arg :: rest =>
    if arg = "-a" || arg = "--a" then
      match rest with
      | [] => Except.error ExpandError.missingAliasArgument
      | name :: rest2 =>
        match GetAliasList cfg name with
        | none => Except.error (ExpandError.aliasNotFound name)
        | some al =>
          match expandAliasesInArgs cfg rest2 with
          | Except.error e => Except.error e
          | Except.ok expanded => Except.ok (ExpandAlias al.options ++ expanded)
    else
      match expandAliasesInArgs cfg rest with
      | Except.error e => Except.error e
      | Except.ok expanded => Except.ok (arg :: expanded)

deriving instance DecidableEq for Except

/-! ### Helper lemmas about the selection filter -/

theorem selectFile_path (env : Env) (cfg : Config) (file : String) (fi : FileInfo)
    (h : selectFile env cfg file = some fi) : fi.path = file := by
  simp only [selectFile] at h
  split at h
  · exact absurd h (by simp)
  · split at h
    · exact absurd h (by simp)
    · split at h
      · exact absurd h (by simp)
      · split at h
        · split at h
          · cases h
            rfl
          · exact absurd h (by simp)
        · cases h
          rfl

theorem selectFile_not_included (env : Env) (cfg : Config) (file : String)
    (h : isIncludedFile cfg file = false) : selectFile env cfg file = none := by
  simp [selectFile, h]

theorem selectFile_excluded (env : Env) (cfg : Config) (file : String)
    (hf : isForcedFile cfg file = false) (hex : isExcludedFile cfg file = true) :
    selectFile env cfg file = none := by
  simp [selectFile, hf, hex]

theorem path_not_selected (env : Env) (cfg : Config) (file : String)
    (hnone : selectFile env cfg file = none) (files : List String) :
    file ∉ (filterAndEnrichFiles env files cfg).map FileInfo.path := by
  intro hmem
  obtain ⟨fi, hfi, hpath⟩ := List.mem_map.mp hmem
  obtain ⟨a, hmem2, hsel⟩ := List.mem_filterMap.mp hfi
  have hpa := selectFile_path env cfg a fi hsel
  rw [hpath] at hpa
  rw [← hpa] at hsel
  rw [hnone] at hsel
  cases hsel

/-! ### Claims about the file selector -/

/-- C10: for every candidate path list and pattern configuration, the
selection filter returns a subsequence of its input — paths are only
dropped, never reordered, duplicated or invented. -/
theorem selection_result_sublist (env : Env) (files : List String) (cfg : Config) :
    List.Sublist ((filterAndEnrichFiles env files cfg).map FileInfo.path) files := by
  induction files with
  | nil => simp [filterAndEnrichFiles]
  | cons a rest ih =>
    simp only [filterAndEnrichFiles, List.filterMap_cons] at ih ⊢
    cases hsel : selectFile env cfg a with
    | none => exact List.Sublist.cons a ih
    | some fi =>
      rw [List.map_cons, selectFile_path env cfg a fi hsel]
      exact List.Sublist.cons₂ a ih

/-- C1: a path matching a force-include pattern appears in the selector's
result with the forced flag set (and classified as text), no matter what
the exclude patterns, its size, or the text classification say; and the
assembler emits a forced, regular, readable file's delimited content with
no size or text check. -/
theorem forceInclude_is_absorbing :
    (∀ (env : Env) (files : List String) (cfg : Config) (file : String) (st : FileStat),
      file ∈ files →
      isForcedFile cfg file = true →
      env.statFile file = some st →
      ({ path := file, isText := true, isForced := true,
         size := st.size, isRegular := st.isRegular } : FileInfo) ∈
        filterAndEnrichFiles env files cfg) ∧
    (∀ (env : Env) (maxFileSize : Int) (f : FileInfo) (content : String),
      f.isForced = true → f.isRegular = true → env.readFile f.path = some content →
      writeFileEntry env maxFileSize f =
        some ("\n--- FILE: " ++ f.path ++ " ---\n" ++ content ++
              "\n--- END FILE: " ++ f.path ++ " ---\n")) := by
  constructor
  · intro env files cfg file st hmem hforce hstat
    have hsel : selectFile env cfg file =
        some { path := file, isText := true, isForced := true,
               size := st.size, isRegular := st.isRegular } := by
      simp [selectFile, isIncludedFile, hforce, hstat]
    exact List.mem_filterMap.mpr ⟨file, hmem, hsel⟩
  · intro env maxFileSize f content hforced hreg hread
    simp [writeFileEntry, hforced, hreg, hread]

def envW1 : Env :=
  { gitFiles := fun _ => ["big.bin"]
    statFile := fun p => if p = "big.bin" then some { size := 2000000, isRegular := true } else none
    isTextFile := fun _ => false
    readFile := fun p => if p = "big.bin" then some "BIN" else none
    clipboard := none
    tree := none }

def cfgW1 : Config :=
  { includePatterns := []
    excludePatterns := ["big.bin"]
    forceIncludePatterns := ["big.bin"] }

def fiW1 : FileInfo :=
  { path := "big.bin", isText := true, isForced := true, size := 2000000, isRegular := true }

/-- Witness for C1: an excluded, oversized, binary-classified path that
matches a force-include pattern is selected as forced and its content is
emitted. -/
theorem forceInclude_is_absorbing_witness :
    fiW1 ∈ filterAndEnrichFiles envW1 ["big.bin"] cfgW1 ∧
    writeFileEntry envW1 1048576 fiW1 =
      some ("\n--- FILE: " ++ fiW1.path ++ " ---\n" ++ "BIN" ++
            "\n--- END FILE: " ++ fiW1.path ++ " ---\n") :=
  ⟨forceInclude_is_absorbing.1 envW1 ["big.bin"] cfgW1 "big.bin"
      { size := 2000000, isRegular := true } (by decide) (by decide) (by decide),
   forceInclude_is_absorbing.2 envW1 1048576 fiW1 "BIN" (by decide) (by decide) (by decide)⟩

/-- C2: the inclusion step — a non-forced path with a non-empty include
set must match an include pattern or it is dropped from the result; with
an empty include set but non-empty force-include set only forced paths
survive; with both sets empty every candidate passes the inclusion
step. -/
theorem inclusion_step_semantics :
    (∀ (env : Env) (files : List String) (cfg : Config) (file : String),
      isForcedFile cfg file = false →
      cfg.includePatterns ≠ [] →
      (cfg.includePatterns.any fun pattern => matchesPattern file pattern) = false →
      file ∉ (filterAndEnrichFiles env files cfg).map FileInfo.path) ∧
    (∀ (env : Env) (files : List String) (cfg : Config) (file : String),
      cfg.includePatterns = [] →
      cfg.forceIncludePatterns ≠ [] →
      isForcedFile cfg file = false →
      file ∉ (filterAndEnrichFiles env files cfg).map FileInfo.path) ∧
    (∀ (cfg : Config) (file : String),
      cfg.includePatterns = [] → cfg.forceIncludePatterns = [] →
      isIncludedFile cfg file = true) := by
  refine ⟨?_, ?_, ?_⟩
  · intro env files cfg file hf hne hnomatch
    have hlen : 0 < cfg.includePatterns.length := List.length_pos.mpr hne
    have hinc : isIncludedFile cfg file = false := by
      simp [isIncludedFile, hf, hlen, hnomatch]
    exact path_not_selected env cfg file (selectFile_not_included env cfg file hinc) files
  · intro env files cfg file hinc0 hfne hf
    have hlen : 0 < cfg.forceIncludePatterns.length := List.length_pos.mpr hfne
    have hinc : isIncludedFile cfg file = false := by
      simp [isIncludedFile, hf, hinc0, hlen]
    exact path_not_selected env cfg file (selectFile_not_included env cfg file hinc) files
  · intro cfg file hinc0 hforce0
    have hf : isForcedFile cfg file = false := by simp [isForcedFile, hforce0]
    simp [isIncludedFile, hf, hinc0, hforce0]

def envW2 : Env :=
  { gitFiles := fun _ => ["a.py"]
    statFile := fun _ => some { size := 3, isRegular := true }
    isTextFile := fun _ => true
    readFile := fun _ => some "x"
    clipboard := none
    tree := none }

/-- Witness for C2: with include `*.go`, the path `a.py` is dropped; with
only force-include `*.bin`, the unforced `a.py` is dropped; with no
patterns, `a.py` passes the inclusion step. -/
theorem inclusion_step_semantics_witness :
    "a.py" ∉ (filterAndEnrichFiles envW2 ["a.py"]
        { includePatterns := ["*.go"], excludePatterns := [],
          forceIncludePatterns := [] }).map FileInfo.path ∧
    "a.py" ∉ (filterAndEnrichFiles envW2 ["a.py"]
        { includePatterns := [], excludePatterns := [],
          forceIncludePatterns := ["*.bin"] }).map FileInfo.path ∧
    isIncludedFile
        { includePatterns := [], excludePatterns := [], forceIncludePatterns := [] }
        "a.py" = true :=
  ⟨inclusion_step_semantics.1 envW2 ["a.py"] _ "a.py" (by decide) (by decide) (by decide),
   inclusion_step_semantics.2.1 envW2 ["a.py"] _ "a.py" (by decide) (by decide) (by decide),
   inclusion_step_semantics.2.2 _ "a.py" (by decide) (by decide)⟩

/-- C5: the exclusion step — a non-forced path is rejected exactly when
some exclude pattern, normalized by stripping a trailing slash, matches
it via `matchesPattern` (exact or glob) or is a directory prefix of it;
any such rejection removes the path from the result. -/
theorem exclusion_step_semantics :
    (∀ (cfg : Config) (file : String),
      isExcludedFile cfg file = true ↔
        ∃ p ∈ cfg.excludePatterns,
          (matchesPattern file (trimTrailSlash p) = true ∨
           hasPre (trimTrailSlash p ++ "/") file = true)) ∧
    (∀ (env : Env) (files : List String) (cfg : Config) (file : String),
      isForcedFile cfg file = false →
      isExcludedFile cfg file = true →
      file ∉ (filterAndEnrichFiles env files cfg).map FileInfo.path) := by
  constructor
  · intro cfg file
    simp [isExcludedFile, List.any_eq_true]
  · intro env files cfg file hf hex
    exact path_not_selected env cfg file (selectFile_excluded env cfg file hf hex) files

/-- Witness for C5: `pkg/legacy/` (trailing slash normalized) excludes
the nested path `pkg/legacy/b.go`, which therefore does not appear in
the result. -/
theorem exclusion_step_semantics_witness :
    isExcludedFile
        { includePatterns := [], excludePatterns := ["pkg/legacy/"],
          forceIncludePatterns := [] } "pkg/legacy/b.go" = true ∧
    "pkg/legacy/b.go" ∉ (filterAndEnrichFiles envW2 ["pkg/legacy/b.go"]
        { includePatterns := [], excludePatterns := ["pkg/legacy/"],
          forceIncludePatterns := [] }).map FileInfo.path :=
  ⟨(exclusion_step_semantics.1 _ "pkg/legacy/b.go").mpr
      ⟨"pkg/legacy/", by decide, Or.inr (by decide)⟩,
   exclusion_step_semantics.2 envW2 ["pkg/legacy/b.go"] _ "pkg/legacy/b.go"
      (by decide) (by decide)⟩

/-- C4: glob semantics — a pattern with one double-wildcard segment
matches a path carrying the pattern's literal prefix whenever the
(slash-trimmed) suffix pattern glob-matches the whole remainder or some
rightward sub-path of the remainder's segments; in particular
`src/**/*.go` matches both `src/a.go` and `src/x/y/a.go`; a pattern
without a double wildcard behaves as exact match or a standard
`filepath.Match` filename glob. -/
theorem doubleStar_glob_semantics :
    (∀ (file pattern pre suf0 : String),
      splitOnStarStar pattern = [pre, suf0] →
      hasPre pre file = true →
      (goMatch (trimLeadSlash suf0) (trimLeadSlash (trimPre file pre)) = true ∨
       ∃ i, i < (splitOnSlash (trimLeadSlash (trimPre file pre))).length ∧
         goMatch (trimLeadSlash suf0)
           (intercalateSlash
             ((splitOnSlash (trimLeadSlash (trimPre file pre))).drop i)) = true) →
      matchesPattern file pattern = true) ∧
    matchesPattern "src/a.go" "src/**/*.go" = true ∧
    matchesPattern "src/x/y/a.go" "src/**/*.go" = true ∧
    (∀ (file pattern : String),
      (splitOnStarStar pattern).length = 1 →
      matchesPattern file pattern = (decide (file = pattern) || goMatch pattern file)) := by
  refine ⟨?_, by decide, by decide, ?_⟩
  · intro file pattern pre suf0 hsplit hpre hdisj
    simp only [matchesPattern]
    split
    · rfl
    · split
      · rfl
      · rw [hsplit]
        simp only [hpre, if_true]
        rcases hdisj with hdirect | ⟨i, hi, hgm⟩
        · simp [hdirect]
        · split
          · rfl
          · rw [List.any_eq_true]
            exact ⟨i, List.mem_range.mpr hi, hgm⟩
  · intro file pattern hlen
    obtain ⟨x, hx⟩ := List.length_eq_one.mp hlen
    simp only [matchesPattern]
    split
    · rename_i heq
      simp [heq]
    · split
      · rename_i hgo
        simp [hgo]
      · rename_i hne hgo
        rw [hx]
        simp at hgo
        simp [decide_eq_false hne, hgo]

/-- Witness for C4: the double-wildcard sufficiency applied to
`a/**/*.md` against `a/b/c.md` via the rightward sub-path `c.md`, and
the no-double-wildcard characterization applied to `*.go` against
`a.go`. -/
theorem doubleStar_glob_semantics_witness :
    matchesPattern "a/b/c.md" "a/**/*.md" = true ∧
    matchesPattern "a.go" "*.go" = (decide ("a.go" = "*.go") || goMatch "*.go" "a.go") :=
  ⟨doubleStar_glob_semantics.1 "a/b/c.md" "a/**/*.md" "a/" "/*.md"
      (by decide) (by decide)
      (Or.inr ⟨1, by decide, by decide⟩),
   doubleStar_glob_semantics.2.2.2 "a.go" "*.go" (by decide)⟩

/-! ### Raw-mode ordering (C3) -/

/-- What one order-log entry contributes to the raw document, per the
spec: the question's literal text (for `-qf`/`-c`, the text that was
read), or the delimited contents of the files matched by that single
pattern. -/
def rawDeclaredBlock (env : Env) (excl : List String) (item : ArgOrderItem) : String :=
  if item.type = "question" then item.content ++ "\n"
  else if item.type = "question_file" then ((env.readFile item.content).getD "") ++ "\n"
  else if item.type = "clipboard" then (env.clipboard.getD "") ++ "\n"
  else if item.type = "include" then
    joinStr (writeFilesList env 1048576 (ListGitFiles env
      { includePatterns := [item.content], excludePatterns := excl,
        forceIncludePatterns := [] }))
  else if item.type = "force_include" then
    joinStr (writeFilesList env 1048576 (ListGitFiles env
      { includePatterns := [], excludePatterns := excl,
        forceIncludePatterns := [item.content] }))
  else ""

theorem readQuestionFile_ok (env : Env) (path content : String)
    (h : readQuestionFile env path = Except.ok content) :
    env.readFile path = some content := by
  simp only [readQuestionFile] at h
  split at h
  · cases h
  · rename_i c heq
    split at h
    · cases h
    · cases h
      exact heq

theorem readClipboard_ok (env : Env) (content : String)
    (h : readClipboard env = Except.ok content) :
    env.clipboard = some content := by
  simp only [readClipboard] at h
  split at h
  · cases h
  · rename_i c heq
    split at h
    · cases h
    · cases h
      exact heq

theorem buildRawItems_blocks (env : Env) (excl : List String) :
    ∀ (ord : List ArgOrderItem) (items : List ContentItem) (infos : List FileInfo),
      buildRawItems env excl ord = Except.ok (items, infos) →
      joinStr (items.map (rawRenderItem env 1048576)) =
        joinStr (ord.map (rawDeclaredBlock env excl)) := by
  intro ord
  induction ord with
  | nil =>
    intro items infos h
    simp only [buildRawItems] at h
    cases h
    simp [joinStr]
  | cons item rest ih =>
    intro items infos h
    simp only [buildRawItems] at h
    by_cases h1 : item.type = "question"
    · rw [if_pos h1] at h
      cases hrec : buildRawItems env excl rest with
      | error e => rw [hrec] at h; cases h
      | ok pair =>
        obtain ⟨its, infs⟩ := pair
        rw [hrec] at h
        cases h
        simp only [List.map_cons, joinStr]
        rw [ih its _ hrec]
        congr 1
        simp [rawRenderItem, rawDeclaredBlock, h1]
    · rw [if_neg h1] at h
      by_cases h2 : item.type = "question_file"
      · rw [if_pos h2] at h
        cases hrq : readQuestionFile env item.content with
        | error e => rw [hrq] at h; cases h
        | ok content =>
          rw [hrq] at h
          cases hrec : buildRawItems env excl rest with
          | error e => rw [hrec] at h; cases h
          | ok pair =>
            obtain ⟨its, infs⟩ := pair
            rw [hrec] at h
            cases h
            have hread := readQuestionFile_ok env item.content content hrq
            simp only [List.map_cons, joinStr]
            rw [ih its _ hrec]
            congr 1
            simp [rawRenderItem, rawDeclaredBlock, h1, h2, hread]
      · rw [if_neg h2] at h
        by_cases h3 : item.type = "clipboard"
        · rw [if_pos h3] at h
          cases hrq : readClipboard env with
          | error e => rw [hrq] at h; cases h
          | ok content =>
            rw [hrq] at h
            cases hrec : buildRawItems env excl rest with
            | error e => rw [hrec] at h; cases h
            | ok pair =>
              obtain ⟨its, infs⟩ := pair
              rw [hrec] at h
              cases h
              have hread := readClipboard_ok env content hrq
              simp only [List.map_cons, joinStr]
              rw [ih its _ hrec]
              congr 1
              simp [rawRenderItem, rawDeclaredBlock, h1, h2, h3, hread]
        · rw [if_neg h3] at h
          by_cases h4 : item.type = "include" ∨ item.type = "force_include"
          · rw [if_pos h4] at h
            by_cases h5 : item.type = "force_include"
            · simp only [if_pos h5] at h
              cases hrec : buildRawItems env excl rest with
              | error e => rw [hrec] at h; cases h
              | ok pair =>
                obtain ⟨its, infs⟩ := pair
                rw [hrec] at h
                cases h
                simp only [List.map_cons, joinStr]
                rw [ih its _ hrec]
                congr 1
                simp [rawRenderItem, rawDeclaredBlock, h1, h2, h3, h5]
            · have h4i : item.type = "include" := by
                rcases h4 with hi | hf
                · exact hi
                · exact absurd hf h5
              simp only [if_neg h5] at h
              cases hrec : buildRawItems env excl rest with
              | error e => rw [hrec] at h; cases h
              | ok pair =>
                obtain ⟨its, infs⟩ := pair
                rw [hrec] at h
                cases h
                simp only [List.map_cons, joinStr]
                rw [ih its _ hrec]
                congr 1
                simp [rawRenderItem, rawDeclaredBlock, h1, h2, h3, h4i, h5]
          · rw [if_neg h4] at h
            have := ih items infos h
            rw [this]
            have h4i : ¬ item.type = "include" := fun hc => h4 (Or.inl hc)
            have h4f : ¬ item.type = "force_include" := fun hc => h4 (Or.inr hc)
            simp only [List.map_cons, joinStr]
            have hblk : rawDeclaredBlock env excl item = "" := by
              simp [rawDeclaredBlock, h1, h2, h3, h4i, h4f]
            rw [hblk]
            cases hrest : joinStr (rest.map (rawDeclaredBlock env excl)) with
            | mk l => rfl

theorem buildRawItems_nil_items (env : Env) (excl : List String) :
    ∀ (ord : List ArgOrderItem) (infos : List FileInfo),
      buildRawItems env excl ord = Except.ok ([], infos) → infos = [] := by
  intro ord
  induction ord with
  | nil =>
    intro infos h
    simp only [buildRawItems] at h
    cases h
    rfl
  | cons item rest ih =>
    intro infos h
    simp only [buildRawItems] at h
    by_cases h1 : item.type = "question"
    · rw [if_pos h1] at h
      cases hrec : buildRawItems env excl rest with
      | error e => rw [hrec] at h; cases h
      | ok pair => rw [hrec] at h; cases h
    · rw [if_neg h1] at h
      by_cases h2 : item.type = "question_file"
      · rw [if_pos h2] at h
        cases hrq : readQuestionFile env item.content with
        | error e => rw [hrq] at h; cases h
        | ok content =>
          rw [hrq] at h
          cases hrec : buildRawItems env excl rest with
          | error e => rw [hrec] at h; cases h
          | ok pair => rw [hrec] at h; cases h
      · rw [if_neg h2] at h
        by_cases h3 : item.type = "clipboard"
        · rw [if_pos h3] at h
          cases hrq : readClipboard env with
          | error e => rw [hrq] at h; cases h
          | ok content =>
            rw [hrq] at h
            cases hrec : buildRawItems env excl rest with
            | error e => rw [hrec] at h; cases h
            | ok pair => rw [hrec] at h; cases h
        · rw [if_neg h3] at h
          by_cases h4 : item.type = "include" ∨ item.type = "force_include"
          · rw [if_pos h4] at h
            by_cases h5 : item.type = "force_include"
            · simp only [if_pos h5] at h
              cases hrec : buildRawItems env excl rest with
              | error e => rw [hrec] at h; cases h
              | ok pair => rw [hrec] at h; cases h
            · simp only [if_neg h5] at h
              cases hrec : buildRawItems env excl rest with
              | error e => rw [hrec] at h; cases h
              | ok pair => rw [hrec] at h; cases h
          · rw [if_neg h4] at h
            exact ih infos h

/-- C3: in raw mode, for any interleaving of question and file-group
items in the order log, the rendered document is exactly the
concatenation of those items' content blocks in declared argument order,
with no template preamble, project-structure section or standing
sentences added. -/
theorem rawMode_ordering (env : Env) (p : ParsedArgs) (text : String) (n : Nat)
    (hraw : p.rawMode = true) (hord : p.argOrder ≠ [])
    (hok : processFilesAndGeneratePrompt env p = Except.ok (text, n)) :
    text = joinStr (p.argOrder.map (rawDeclaredBlock env p.excludePatterns)) := by
  have hlen : 0 < p.argOrder.length := List.length_pos.mpr hord
  simp only [processFilesAndGeneratePrompt, buildStep, hraw, hlen] at hok
  cases hbr : buildRawItems env p.excludePatterns p.argOrder with
  | error e => rw [hbr] at hok; cases hok
  | ok pair =>
    obtain ⟨items, infos⟩ := pair
    rw [hbr] at hok
    simp only [decide_True, Bool.true_and, Bool.and_true, if_true, Bool.not_true,
      Bool.and_false, decide_eq_true_eq] at hok
    split at hok
    · cases hok
    · rw [if_neg (by simp : ¬ (false = true))] at hok
      have hcq : collectDefaultQuestions env p = Except.ok [] := by
        simp [collectDefaultQuestions, hraw]
      rw [hcq] at hok
      simp only [pipelineGenerator, hraw, generate, NewGenerator, generateRawMode,
        Bool.true_eq_false, decide_False, Bool.false_and, Bool.false_eq_true, if_false,
        ite_true] at hok
      cases items with
      | nil =>
        have hinf : infos = [] :=
          buildRawItems_nil_items env p.excludePatterns p.argOrder infos hbr
        subst hinf
        simp [writeFilesList, joinStr] at hok
      | cons it0 its0 =>
        rw [if_pos (by simp : (it0 :: its0).length > 0)] at hok
        split at hok
        · cases hok
        · cases hok
          exact buildRawItems_blocks env p.excludePatterns p.argOrder (it0 :: its0) infos hbr

def envW3 : Env :=
  { gitFiles := fun _ => ["x.go"]
    statFile := fun p => if p = "x.go" then some { size := 7, isRegular := true } else none
    isTextFile := fun _ => true
    readFile := fun p => if p = "x.go" then some "package" else none
    clipboard := none
    tree := none }

def pW3 : ParsedArgs := customParseArgs ["--raw", "-q", "A", "-i", "x.go", "-q", "B"]

/-- Witness for C3: `--raw -q A -i x.go -q B` renders `A`, then `x.go`'s
delimited content, then `B`, and this document equals the declared-order
concatenation of blocks. -/
theorem rawMode_ordering_witness :
    processFilesAndGeneratePrompt envW3 pW3 =
      Except.ok ("A\n\n--- FILE: x.go ---\npackage\n--- END FILE: x.go ---\nB\n", 1) ∧
    "A\n\n--- FILE: x.go ---\npackage\n--- END FILE: x.go ---\nB\n" =
      joinStr (pW3.argOrder.map (rawDeclaredBlock envW3 pW3.excludePatterns)) :=
  ⟨by decide,
   rawMode_ordering envW3 pW3
      "A\n\n--- FILE: x.go ---\npackage\n--- END FILE: x.go ---\nB\n" 1
      (by decide) (by decide) (by decide)⟩

/-! ### Empty-result errors (C6) -/

def envNone : Env :=
  { gitFiles := fun _ => []
    statFile := fun _ => none
    isTextFile := fun _ => false
    readFile := fun _ => none
    clipboard := none
    tree := none }

/-- C6 (amended): with explicit include or force-include patterns, empty
selection is the patterns-matched-nothing error; with no patterns, empty
selection is the no-files-in-repository error unless raw mode with a
non-empty order log is active (in that case the run proceeds and, with
zero files emitted, fails with the distinct zero-included-files error);
a zero file count at assembly is the distinct zero-included-files error;
and the three errors are pairwise distinguishable. -/
theorem empty_result_errors :
    (∀ (env : Env) (p : ParsedArgs) (items : List ContentItem),
      buildStep env p = Except.ok (items, []) →
      (p.includePatterns ≠ [] ∨ p.forceIncludePatterns ≠ []) →
      processFilesAndGeneratePrompt env p =
        Except.error (MppError.patternsMatchedNothing
          (p.includePatterns ++ p.forceIncludePatterns))) ∧
    (∀ (env : Env) (p : ParsedArgs) (items : List ContentItem),
      buildStep env p = Except.ok (items, []) →
      p.includePatterns = [] → p.forceIncludePatterns = [] →
      ¬(p.rawMode = true ∧ p.argOrder ≠ []) →
      processFilesAndGeneratePrompt env p = Except.error MppError.noFilesInRepository) ∧
    (∀ (env : Env) (p : ParsedArgs) (items : List ContentItem) (infos : List FileInfo)
        (qs : List ContentItem),
      buildStep env p = Except.ok (items, infos) →
      (infos.length = 0 → p.includePatterns = [] ∧ p.forceIncludePatterns = [] ∧
          p.rawMode = true ∧ p.argOrder ≠ []) →
      collectDefaultQuestions env p = Except.ok qs →
      (generate env (pipelineGenerator infos p qs items)).2 = 0 →
      processFilesAndGeneratePrompt env p = Except.error MppError.noFilesIncluded) ∧
    (MppError.noFilesInRepository ≠ MppError.noFilesIncluded ∧
     ∀ ps, MppError.patternsMatchedNothing ps ≠ MppError.noFilesInRepository) := by
  refine ⟨?_, ?_, ?_, by decide, fun ps h => MppError.noConfusion h⟩
  · intro env p items hb hpat
    simp only [processFilesAndGeneratePrompt, hb]
    have hc : (decide (([] : List FileInfo).length = 0) &&
        (decide (p.includePatterns.length > 0) ||
         decide (p.forceIncludePatterns.length > 0))) = true := by
      rcases hpat with h | h
      · simp [List.length_pos.mpr h]
      · simp [List.length_pos.mpr h]
    rw [if_pos hc]
  · intro env p items hb h1 h2 hnr
    simp only [processFilesAndGeneratePrompt, hb, h1, h2]
    have hc1 : (decide (([] : List FileInfo).length = 0) &&
        (decide (([] : List String).length > 0) ||
         decide (([] : List String).length > 0))) = false := by decide
    rw [hc1]
    simp only [Bool.false_eq_true, if_false]
    have hc2 : (decide (([] : List FileInfo).length = 0) &&
        !(p.rawMode && decide (p.argOrder.length > 0))) = true := by
      cases hr : p.rawMode with
      | false => simp
      | true =>
        have hord : p.argOrder = [] := by
          by_contra hne
          exact hnr ⟨hr, hne⟩
        simp [hord]
    rw [if_pos hc2]
  · intro env p items infos qs hb himp hq hzero
    simp only [processFilesAndGeneratePrompt, hb]
    have hc1 : (decide (infos.length = 0) &&
        (decide (p.includePatterns.length > 0) ||
         decide (p.forceIncludePatterns.length > 0))) = false := by
      by_cases hi : infos.length = 0
      · obtain ⟨ha, hb2, _, _⟩ := himp hi
        simp [ha, hb2]
      · simp [hi]
    rw [hc1]
    simp only [Bool.false_eq_true, if_false]
    have hc2 : (decide (infos.length = 0) &&
        !(p.rawMode && decide (p.argOrder.length > 0))) = false := by
      by_cases hi : infos.length = 0
      · obtain ⟨_, _, h3, h4⟩ := himp hi
        simp [hi, h3, List.length_pos.mpr h4]
      · simp [hi]
    rw [hc2]
    simp only [Bool.false_eq_true, if_false, hq]
    rw [if_pos hzero]

def envW6 : Env :=
  { gitFiles := fun _ => ["big.txt"]
    statFile := fun p => if p = "big.txt" then some { size := 2000000, isRegular := true } else none
    isTextFile := fun _ => true
    readFile := fun _ => none
    clipboard := none
    tree := none }

/-- Witness for C6: an empty repository with `-i *.go` reports
patterns-matched-nothing; with no flags it reports
no-files-in-repository; a repository whose only selected file is
oversized (so the assembler emits nothing) reports the distinct
zero-included-files error. -/
theorem empty_result_errors_witness :
    processFilesAndGeneratePrompt envNone (customParseArgs ["-i", "*.go"]) =
      Except.error (MppError.patternsMatchedNothing ["*.go"]) ∧
    processFilesAndGeneratePrompt envNone (customParseArgs []) =
      Except.error MppError.noFilesInRepository ∧
    processFilesAndGeneratePrompt envW6 (customParseArgs []) =
      Except.error MppError.noFilesIncluded :=
  ⟨empty_result_errors.1 envNone (customParseArgs ["-i", "*.go"]) [] (by decide)
      (Or.inl (by decide)),
   empty_result_errors.2.1 envNone (customParseArgs []) [] (by decide) (by decide) (by decide)
      (by decide),
   empty_result_errors.2.2.1 envW6 (customParseArgs []) []
      [{ path := "big.txt", isText := true, isForced := false, size := 2000000,
         isRegular := true }]
      [] (by decide) (by decide) (by decide) (by decide)⟩

def pW6 : ParsedArgs := customParseArgs ["--raw", "-q", "hi"]

/-- Counterexample for C6: in raw mode with only a question declared
(`--raw -q hi`) and an empty repository, selection is empty and no
patterns were given, yet the run does not fail with the
no-files-in-repository error — it proceeds and fails at assembly with
the zero-included-files error. -/
theorem empty_result_errors_counterexample :
    pW6.includePatterns = [] ∧ pW6.forceIncludePatterns = [] ∧
    buildStep envNone pW6 =
      Except.ok ([{ type := "question", content := "hi", order := 0 }], []) ∧
    processFilesAndGeneratePrompt envNone pW6 = Except.error MppError.noFilesIncluded ∧
    processFilesAndGeneratePrompt envNone pW6 ≠ Except.error MppError.noFilesInRepository :=
  ⟨by decide, by decide, by decide, by decide, by decide⟩

/-! ### Default-mode question accumulation (C7) -/

theorem buildQfItems_contents (env : Env) :
    ∀ (qfs : List String) (k : Nat) (items : List ContentItem),
      buildQfItems env k qfs = Except.ok items →
      items.map ContentItem.content = qfs.map fun qf => (env.readFile qf).getD "" := by
  intro qfs
  induction qfs with
  | nil =>
    intro k items h
    simp only [buildQfItems] at h
    cases h
    simp
  | cons qf rest ih =>
    intro k items h
    simp only [buildQfItems] at h
    cases hrq : readQuestionFile env qf with
    | error e => rw [hrq] at h; cases h
    | ok content =>
      rw [hrq] at h
      cases hrec : buildQfItems env (k + 1) rest with
      | error e => rw [hrec] at h; cases h
      | ok its =>
        rw [hrec] at h
        cases h
        have hread := readQuestionFile_ok env qf content hrq
        simp [hread, ih (k + 1) its hrec]

theorem buildQuestionItems_contents (qs : List String) (k : Nat) :
    (buildQuestionItems qs k).map ContentItem.content = qs := by
  simp only [buildQuestionItems, List.map_map]
  have : (ContentItem.content ∘ fun qi : Nat × String =>
      ({ type := "question", content := qi.2, order := k + qi.1 } : ContentItem)) =
      Prod.snd := by
    funext qi
    rfl
  rw [this, List.enum_map_snd]

/-- The contents of the question occurrences (`-q`, `-qf`, `-c`) in
declared order-log order, reading `-qf` files and the clipboard. -/
def declaredQuestionContents (env : Env) (ord : List ArgOrderItem) : List String :=
  ord.filterMap fun item =>
    if item.type = "question" then some item.content
    else if item.type = "question_file" then some ((env.readFile item.content).getD "")
    else if item.type = "clipboard" then some (env.clipboard.getD "")
    else none

/-- C7 (amended): in default mode the accumulated question list is all
`-q` questions in declared order, then all `-qf` file contents in
declared order, then the clipboard question — every declared question
appears, grouped by flag kind rather than interleaved in global
declaration order; the question section renders each accumulated
question on its own line after the standing sentence; and with zero
question items the placeholder question is substituted. -/
theorem default_question_accumulation :
    (∀ (env : Env) (p : ParsedArgs) (qitems : List ContentItem),
      p.rawMode = false →
      collectDefaultQuestions env p = Except.ok qitems →
      qitems.map ContentItem.content =
        p.questions ++ (p.questionFiles.map fun qf => (env.readFile qf).getD "") ++
          (if p.useClipboard = true then [env.clipboard.getD ""] else [])) ∧
    (∀ g : Generator, g.questions ≠ [] →
      questionSection g =
        "\nBased on the context provided above, answer the following question:\n\n" ++
          joinStr (g.questions.map fun q => q.content ++ "\n")) ∧
    (∀ (infos : List FileInfo) (p : ParsedArgs) (items : List ContentItem),
      p.rawMode = false →
      (pipelineGenerator infos p [] items).questions =
        [{ type := "question", content := "[YOUR QUESTION HERE]", order := 0 }]) := by
  refine ⟨?_, ?_, ?_⟩
  · intro env p qitems hnr hq
    simp only [collectDefaultQuestions, hnr, Bool.false_eq_true, if_false] at hq
    cases hqf : buildQfItems env p.questions.length p.questionFiles with
    | error e => rw [hqf] at hq; cases hq
    | ok qfItems =>
      rw [hqf] at hq
      cases hcb : p.useClipboard with
      | false =>
        rw [hcb] at hq
        simp only [Bool.false_eq_true, if_false] at hq
        cases hq
        simp [buildQuestionItems_contents, buildQfItems_contents env p.questionFiles _ _ hqf,
          hcb]
      | true =>
        rw [hcb] at hq
        simp only [if_true] at hq
        cases hcl : readClipboard env with
        | error e => rw [hcl] at hq; cases hq
        | ok c =>
          rw [hcl] at hq
          cases hq
          have hclip := readClipboard_ok env c hcl
          simp [buildQuestionItems_contents, buildQfItems_contents env p.questionFiles _ _ hqf,
            hcb, hclip]
  · intro g hne
    simp [questionSection, List.length_pos.mpr hne]
  · intro infos p items hnr
    simp [pipelineGenerator, NewGenerator, hnr]

def envW7 : Env :=
  { gitFiles := fun _ => ["a.txt"]
    statFile := fun p => if p = "a.txt" then some { size := 5, isRegular := true } else none
    isTextFile := fun _ => true
    readFile := fun p =>
      if p = "a.txt" then some "hello" else if p = "qf1" then some "B" else none
    clipboard := none
    tree := some "T\n" }

def pW7 : ParsedArgs := customParseArgs ["-qf", "qf1", "-q", "A"]

def gW7 : Generator :=
  { files := [], question := "", maxFileSize := 1048576, quietMode := false,
    questions := [{ type := "question", content := "A", order := 0 },
                  { type := "question", content := "B", order := 1 }] }

/-- Witness for C7: for `-qf qf1 -q A` the accumulated questions are
`A` then `B` (the file content), the non-empty question section renders
them one per line, and with no questions the placeholder is
substituted. -/
theorem default_question_accumulation_witness :
    (collectDefaultQuestions envW7 pW7).map (List.map ContentItem.content) =
      Except.ok ["A", "B"] ∧
    questionSection gW7 =
      "\nBased on the context provided above, answer the following question:\n\n" ++
        joinStr ["A\n", "B\n"] ∧
    (pipelineGenerator [] (customParseArgs []) [] []).questions =
      [{ type := "question", content := "[YOUR QUESTION HERE]", order := 0 }] := by
  refine ⟨?_, ?_, ?_⟩
  · have h := default_question_accumulation.1 envW7 pW7
      [{ type := "question", content := "A", order := 0 },
       { type := "question", content := "B", order := 1 }]
      (by decide) (by decide)
    rw [show collectDefaultQuestions envW7 pW7 =
        Except.ok [{ type := "question", content := "A", order := 0 },
                   { type := "question", content := "B", order := 1 }] from by decide]
    simp only [Except.map]
    rw [h]
    decide
  · have h := default_question_accumulation.2.1 gW7 (by decide)
    rw [h]
    decide
  · exact default_question_accumulation.2.2 [] (customParseArgs []) [] (by decide)

def docW7 : String :=
  "Here is the context of my current project. Analyze the structure and content of the provided files to answer my question.\n\n--- PROJECT STRUCTURE (based on \x27tree\x27, may differ slightly from included files) ---\nT\n\n--- FILE CONTENT (based on git ls-files, respecting .gitignore and -i/-e/-f options) ---\n\n--- FILE: a.txt ---\nhello\n--- END FILE: a.txt ---\n\n--- END OF FILE CONTENT ---\n\nBased on the context provided above, answer the following question:\n\nA\nB\n"

set_option maxRecDepth 4000 in
/-- Counterexample for C7: with `-qf qf1 -q A` (file `qf1` holding `B`),
the declared occurrence order is `B` then `A`, but the rendered question
section shows `A` then `B` — all `-q` questions come before all `-qf`
questions, not in global declaration order. -/
theorem default_question_accumulation_counterexample :
    declaredQuestionContents envW7 pW7.argOrder = ["B", "A"] ∧
    (collectDefaultQuestions envW7 pW7).map (List.map ContentItem.content) =
      Except.ok ["A", "B"] ∧
    (["A", "B"] : List String) ≠ ["B", "A"] ∧
    processFilesAndGeneratePrompt envW7 pW7 = Except.ok (docW7, 1) := by
  refine ⟨by decide, by decide, by decide, by decide⟩

/-! ### Alias shadowing (C8) -/

theorem assocLookup_append_some {α : Type} (m l : List (String × α)) (k : String) (v : α)
    (h : ((m.find? fun kv => kv.1 = k).map fun kv => kv.2) = some v) :
    (((m ++ l).find? fun kv => kv.1 = k).map fun kv => kv.2) = some v := by
  rw [List.find?_append]
  cases hf : m.find? fun kv => decide (kv.1 = k) with
  | none => rw [hf] at h; cases h
  | some kv =>
    rw [hf] at h
    simpa [Option.or] using h

theorem assocLookup_append_none {α : Type} (m l : List (String × α)) (k : String)
    (h : ((m.find? fun kv => kv.1 = k).map fun kv => kv.2) = none) :
    (((m ++ l).find? fun kv => kv.1 = k).map fun kv => kv.2) =
      ((l.find? fun kv => kv.1 = k).map fun kv => kv.2) := by
  rw [List.find?_append]
  cases hf : m.find? fun kv => decide (kv.1 = k) with
  | none => simp [Option.or]
  | some kv => rw [hf] at h; cases h

theorem lookupStr_append_some (m l : List (String × String)) (k s : String)
    (h : lookupStr m k = some s) : lookupStr (m ++ l) k = some s :=
  assocLookup_append_some m l k s h

theorem lookupStr_append_one_hit (m : List (String × String)) (k v : String)
    (h : lookupStr m k = none) : lookupStr (m ++ [(k, v)]) k = some v := by
  rw [show lookupStr (m ++ [(k, v)]) k =
      (([(k, v)].find? fun kv => kv.1 = k).map fun kv => kv.2) from
    assocLookup_append_none m [(k, v)] k h]
  simp

theorem lookupStr_append_one_miss (m : List (String × String)) (j k v : String)
    (h : lookupStr m k = none) (hjk : ¬ j = k) : lookupStr (m ++ [(j, v)]) k = none := by
  rw [show lookupStr (m ++ [(j, v)]) k =
      (([(j, v)].find? fun kv => kv.1 = k).map fun kv => kv.2) from
    assocLookup_append_none m [(j, v)] k h]
  simp [hjk]

theorem GetAliasList_append_one_hit (m : List (String × Alias)) (k : String) (v : Alias)
    (h : GetAliasList m k = none) : GetAliasList (m ++ [(k, v)]) k = some v := by
  rw [show GetAliasList (m ++ [(k, v)]) k =
      (([(k, v)].find? fun kv => kv.1 = k).map fun kv => kv.2) from
    assocLookup_append_none m [(k, v)] k h]
  simp

theorem GetAliasList_append_one_irrel (m : List (String × Alias)) (j k : String) (v : Alias)
    (hjk : ¬ j = k) : GetAliasList (m ++ [(j, v)]) k = GetAliasList m k := by
  cases hm : GetAliasList m k with
  | some s => exact assocLookup_append_some m [(j, v)] k s hm
  | none =>
    rw [show GetAliasList (m ++ [(j, v)]) k =
        (([(j, v)].find? fun kv => kv.1 = k).map fun kv => kv.2) from
      assocLookup_append_none m [(j, v)] k hm]
    simp [hjk]

/-- `LoadAliases` processes one `(configPath, alias)` pair at a time; the
nested file/alias loops flatten to this single fold. -/
def processAliasChain (seen : List (String × String)) (acc : List (String × Alias))
    (warns : List ShadowWarning) :
    List (String × Alias) → List (String × String) × List (String × Alias) × List ShadowWarning
  | [] => (seen, acc, warns)
  | (path, a) :: rest =>
    match lookupStr seen a.name with
    | some src =>
      processAliasChain seen acc
        (warns ++ [{ name := a.name, firstSource := src, dupSource := path }]) rest
    | none =>
      processAliasChain (seen ++ [(a.name, path)]) (acc ++ [(a.name, a)]) warns rest

theorem loadAliasesFromFile_eq (path : String) :
    ∀ (as : List Alias) (seen : List (String × String)) (acc : List (String × Alias))
      (warns : List ShadowWarning),
      loadAliasesFromFile seen acc warns path as =
        processAliasChain seen acc warns (as.map fun a => (path, a)) := by
  intro as
  induction as with
  | nil => intro seen acc warns; rfl
  | cons a rest ih =>
    intro seen acc warns
    simp only [loadAliasesFromFile, List.map_cons, processAliasChain]
    cases lookupStr seen a.name with
    | some src => exact ih _ _ _
    | none => exact ih _ _ _

theorem processAliasChain_append :
    ∀ (l1 l2 : List (String × Alias)) (seen : List (String × String))
      (acc : List (String × Alias)) (warns : List ShadowWarning),
      processAliasChain seen acc warns (l1 ++ l2) =
        processAliasChain (processAliasChain seen acc warns l1).1
          (processAliasChain seen acc warns l1).2.1
          (processAliasChain seen acc warns l1).2.2 l2 := by
  intro l1
  induction l1 with
  | nil => intro l2 seen acc warns; rfl
  | cons pa rest ih =>
    intro l2 seen acc warns
    obtain ⟨path, a⟩ := pa
    simp only [List.cons_append, processAliasChain]
    cases lookupStr seen a.name with
    | some src => exact ih _ _ _ _
    | none => exact ih _ _ _ _

theorem loadAliasesLoop_eq :
    ∀ (chain : List (String × List Alias)) (seen : List (String × String))
      (acc : List (String × Alias)) (warns : List ShadowWarning),
      loadAliasesLoop seen acc warns chain =
        ((processAliasChain seen acc warns (flattenChain chain)).2.1,
         (processAliasChain seen acc warns (flattenChain chain)).2.2) := by
  intro chain
  induction chain with
  | nil => intro seen acc warns; rfl
  | cons pf rest ih =>
    intro seen acc warns
    obtain ⟨path, as⟩ := pf
    simp only [loadAliasesLoop, flattenChain, List.flatMap_cons]
    rw [loadAliasesFromFile_eq path as seen acc warns]
    rw [processAliasChain_append]
    rw [ih]
    rfl

theorem processAliasChain_spec_seen (name src : String) :
    ∀ (flat : List (String × Alias)) (seen : List (String × String))
      (acc : List (String × Alias)) (warns : List ShadowWarning),
      lookupStr seen name = some src →
      GetAliasList (processAliasChain seen acc warns flat).2.1 name = GetAliasList acc name ∧
      (processAliasChain seen acc warns flat).2.2.filter (fun w => w.name = name) =
        warns.filter (fun w => w.name = name) ++
          ((flat.filter fun pa => pa.2.name = name).map
            fun pa => { name := name, firstSource := src, dupSource := pa.1 }) := by
  intro flat
  induction flat with
  | nil =>
    intro seen acc warns hseen
    simp [processAliasChain]
  | cons pa rest ih =>
    intro seen acc warns hseen
    obtain ⟨path, a⟩ := pa
    by_cases hn : a.name = name
    · have hlook : lookupStr seen a.name = some src := by rw [hn]; exact hseen
      simp only [processAliasChain, hlook]
      have hrec := ih seen acc
        (warns ++ [{ name := a.name, firstSource := src, dupSource := path }]) hseen
      refine ⟨hrec.1, ?_⟩
      rw [hrec.2]
      rw [List.filter_append]
      simp [hn, List.filter_cons]
    · simp only [processAliasChain]
      cases hlook : lookupStr seen a.name with
      | some s =>
        have hrec := ih seen acc
          (warns ++ [{ name := a.name, firstSource := s, dupSource := path }]) hseen
        refine ⟨hrec.1, ?_⟩
        rw [hrec.2]
        rw [List.filter_append]
        simp [hn, List.filter_cons]
      | none =>
        have hseen2 : lookupStr (seen ++ [(a.name, path)]) name = some src :=
          lookupStr_append_some seen [(a.name, path)] name src hseen
        have hrec := ih (seen ++ [(a.name, path)]) (acc ++ [(a.name, a)]) warns hseen2
        refine ⟨?_, ?_⟩
        · rw [hrec.1]
          exact GetAliasList_append_one_irrel acc a.name name a hn
        · rw [hrec.2]
          simp [hn, List.filter_cons]

theorem processAliasChain_spec_unseen (name : String) :
    ∀ (flat : List (String × Alias)) (seen : List (String × String))
      (acc : List (String × Alias)) (warns : List ShadowWarning),
      lookupStr seen name = none →
      GetAliasList acc name = none →
      ∀ (src : String) (a : Alias) (rest0 : List (String × Alias)),
        (flat.filter fun pa => pa.2.name = name) = (src, a) :: rest0 →
        GetAliasList (processAliasChain seen acc warns flat).2.1 name = some a ∧
        (processAliasChain seen acc warns flat).2.2.filter (fun w => w.name = name) =
          warns.filter (fun w => w.name = name) ++
            (rest0.map fun pa => { name := name, firstSource := src, dupSource := pa.1 }) := by
  intro flat
  induction flat with
  | nil =>
    intro seen acc warns hseen hacc src a rest0 hocc
    cases hocc
  | cons pa rest ih =>
    intro seen acc warns hseen hacc src a rest0 hocc
    obtain ⟨path, b⟩ := pa
    by_cases hn0 : b.name = name
    · have hfil : ((path, b) :: rest).filter (fun pa => pa.2.name = name) =
          (path, b) :: rest.filter (fun pa => pa.2.name = name) := by
        simp [List.filter_cons, hn0]
      rw [hfil] at hocc
      cases hocc
      have hlook : lookupStr seen a.name = none := by rw [hn0]; exact hseen
      simp only [processAliasChain, hlook]
      have hseen2 : lookupStr (seen ++ [(a.name, src)]) name = some src := by
        rw [← hn0] at hseen ⊢
        exact lookupStr_append_one_hit seen a.name src hseen
      have hacc2 : GetAliasList (acc ++ [(a.name, a)]) name = some a := by
        rw [← hn0] at hacc ⊢
        exact GetAliasList_append_one_hit acc a.name a hacc
      have hrec := processAliasChain_spec_seen name src rest
        (seen ++ [(a.name, src)]) (acc ++ [(a.name, a)]) warns hseen2
      exact ⟨by rw [hrec.1]; exact hacc2, hrec.2⟩
    · have hfil : ((path, b) :: rest).filter (fun pa => pa.2.name = name) =
          rest.filter (fun pa => pa.2.name = name) := by
        simp [List.filter_cons, hn0]
      rw [hfil] at hocc
      simp only [processAliasChain]
      cases hlook : lookupStr seen b.name with
      | some s =>
        have hrec := ih seen acc
          (warns ++ [{ name := b.name, firstSource := s, dupSource := path }]) hseen hacc
          src a rest0 hocc
        refine ⟨hrec.1, ?_⟩
        rw [hrec.2]
        rw [List.filter_append]
        simp [hn0, List.filter_cons]
      | none =>
        have hseen2 : lookupStr (seen ++ [(b.name, path)]) name = none :=
          lookupStr_append_one_miss seen b.name name path hseen hn0
        have hacc2 : GetAliasList (acc ++ [(b.name, b)]) name = none := by
          rw [GetAliasList_append_one_irrel acc b.name name b hn0]
          exact hacc
        exact ih (seen ++ [(b.name, path)]) (acc ++ [(b.name, b)]) warns hseen2 hacc2
          src a rest0 hocc

/-- C8: when the same alias name is defined in several configuration
files on the upward search path, lookup returns the definition from the
file closest to the working directory (the first occurrence), and every
shadowed definition produces a duplicate warning naming the alias, the
winning file and the shadowed file. -/
theorem alias_shadowing (chain : List (String × List Alias)) (name src : String) (a : Alias)
    (rest0 : List (String × Alias))
    (hocc : aliasOccurrences chain name = (src, a) :: rest0) :
    GetAliasList (LoadAliasesChain chain).1 name = some a ∧
    (LoadAliasesChain chain).2.filter (fun w => w.name = name) =
      rest0.map fun pa => { name := name, firstSource := src, dupSource := pa.1 } := by
  have hL := loadAliasesLoop_eq chain [] [] []
  have h := processAliasChain_spec_unseen name (flattenChain chain) [] [] []
    (by rfl) (by rfl) src a rest0 hocc
  constructor
  · rw [show (LoadAliasesChain chain).1 =
        (processAliasChain [] [] [] (flattenChain chain)).2.1 from congrArg Prod.fst hL]
    exact h.1
  · rw [show (LoadAliasesChain chain).2 =
        (processAliasChain [] [] [] (flattenChain chain)).2.2 from congrArg Prod.snd hL]
    rw [h.2]
    rfl

def chainW8 : List (String × List Alias) :=
  [("/w/proj/.mpp.txt", [{ name := "common", options := "-i *.go", source := "/w/proj/.mpp.txt" }]),
   ("/w/.mpp.txt", [{ name := "common", options := "-i *.js", source := "/w/.mpp.txt" }]),
   ("/.mpp.txt", [{ name := "common", options := "-i *.py", source := "/.mpp.txt" }])]

/-- Witness for C8: `common` defined in three files on the search path —
the definition closest to the working directory wins and both shadowed
definitions are reported. -/
theorem alias_shadowing_witness :
    GetAliasList (LoadAliasesChain chainW8).1 "common" =
      some { name := "common", options := "-i *.go", source := "/w/proj/.mpp.txt" } ∧
    (LoadAliasesChain chainW8).2.filter (fun w => w.name = "common") =
      [{ name := "common", firstSource := "/w/proj/.mpp.txt", dupSource := "/w/.mpp.txt" },
       { name := "common", firstSource := "/w/proj/.mpp.txt", dupSource := "/.mpp.txt" }] :=
  alias_shadowing chainW8 "common" "/w/proj/.mpp.txt"
    { name := "common", options := "-i *.go", source := "/w/proj/.mpp.txt" }
    [("/w/.mpp.txt", { name := "common", options := "-i *.js", source := "/w/.mpp.txt" }),
     ("/.mpp.txt", { name := "common", options := "-i *.py", source := "/.mpp.txt" })]
    (by decide)

/-! ### Alias expansion (C9) -/

/-- C9: alias expansion is a single left-to-right pass — each `-a name`
pair is replaced in place by the shell-like tokenization of the alias's
options (quoted substrings are single tokens), the inserted tokens are
prepended verbatim and never re-scanned for further alias invocations,
any other token passes through unchanged, and an alias name with no
definition is a fatal error carrying that name. -/
theorem alias_expansion_semantics :
    (∀ (cfg : List (String × Alias)) (name : String) (al : Alias) (rest : List String),
      GetAliasList cfg name = some al →
      expandAliasesInArgs cfg ("-a" :: name :: rest) =
        (expandAliasesInArgs cfg rest).map fun e => ExpandAlias al.options ++ e) ∧
    (∀ (cfg : List (String × Alias)) (name : String) (rest : List String),
      GetAliasList cfg name = none →
      expandAliasesInArgs cfg ("-a" :: name :: rest) =
        Except.error (ExpandError.aliasNotFound name)) ∧
    (∀ (cfg : List (String × Alias)) (arg : String) (rest : List String),
      ¬ arg = "-a" → ¬ arg = "--a" →
      expandAliasesInArgs cfg (arg :: rest) =
        (expandAliasesInArgs cfg rest).map fun e => arg :: e) ∧
    ExpandAlias "--role-message \x27You are a Go expert\x27 -i *.go" =
      ["--role-message", "You are a Go expert", "-i", "*.go"] ∧
    (∀ (cfg : List (String × Alias)) (name : String) (al : Alias),
      GetAliasList cfg name = some al →
      al.options = "-a ghost" →
      expandAliasesInArgs cfg ["-a", name] = Except.ok ["-a", "ghost"]) := by
  refine ⟨?_, ?_, ?_, by decide, ?_⟩
  · intro cfg name al rest hget
    simp only [expandAliasesInArgs, hget]
    cases h : expandAliasesInArgs cfg rest with
    | error e => simp [Except.map]
    | ok expanded => simp [Except.map]
  · intro cfg name rest hget
    simp only [expandAliasesInArgs, hget]
    simp
  · intro cfg arg rest h1 h2
    rw [expandAliasesInArgs.eq_def]
    dsimp only
    rw [if_neg (by simp [h1, h2])]
    cases h : expandAliasesInArgs cfg rest with
    | error e => simp [Except.map]
    | ok expanded => simp [Except.map]
  · intro cfg name al hget hopt
    simp only [expandAliasesInArgs, hget]
    rw [hopt]
    rfl

def cfgW9 : List (String × Alias) :=
  [("x", { name := "x", options := "-a ghost", source := "/w/.mpp.txt" })]

/-- Witness for C9: expanding `-a x` where alias `x` is `-a ghost` yields
the literal tokens `-a ghost` without re-expansion (alias `ghost` is
undefined, so a re-scan would have failed), a quoted option string
tokenizes with the quoted substring as one token, and an undefined alias
name is a fatal error naming it. -/
theorem alias_expansion_semantics_witness :
    expandAliasesInArgs cfgW9 ["-a", "x"] = Except.ok ["-a", "ghost"] ∧
    expandAliasesInArgs cfgW9 ["-a", "ghost"] =
      Except.error (ExpandError.aliasNotFound "ghost") ∧
    expandAliasesInArgs cfgW9 ("-q" :: ["hello"]) =
      (expandAliasesInArgs cfgW9 ["hello"]).map fun e => "-q" :: e :=
  ⟨alias_expansion_semantics.2.2.2.2 cfgW9 "x"
      { name := "x", options := "-a ghost", source := "/w/.mpp.txt" } (by decide) (by decide),
   alias_expansion_semantics.2.1 cfgW9 "ghost" [] (by decide),
   alias_expansion_semantics.2.2.1 cfgW9 "-q" ["hello"] (by decide) (by decide)⟩

end Mpp









